import Mathlib

/-!
Verification development for the BU_CROCCS GMR sensor analysis tool.

The Python sources are shallowly embedded over exact rationals:
numpy float arrays become `List ℚ` (vectors) and `List (List ℚ)`
(matrices whose outer index is the time-sample index), and fallible
code returns `Except`.  Each definition follows one function of the
repository:

* `csvToRaw`, `loadAndReshape`      -- `np.loadtxt` squeeze plus
  `SensorData._load_and_reshape` (src/src/data_loader.py)
* `padToTime`                       -- `SensorData._pad_to_time`
* `posDiffs`, `avgStep`, `extraTime`, `extendTime`, `validTimesOf`,
  `argmaxLen`, `baseTimeOf`, `processedOf`, `loadAndProcess`
                                    -- `SensorData._load_and_process`
* `combineMat`, `summarize`         -- `SensorData._calculate_summary_signal`
* `searchSorted`, `cycleFiles`, `extractAndSaveAllData`, `segPath`
                                    -- `InteractiveDraggableAnalyzer._extract_and_save_all_data`
  (src/src/interactive_plotter.py)
-/

set_option autoImplicit false

/-- A per-sensor-row matrix: outer index is the time sample, inner index the
sensor column, exactly like one element of the `reshaped` list in
`SensorData._load_and_reshape`. -/
abbrev Mat := List (List ℚ)

/-- Result of `np.loadtxt` on a CSV file: a 1-D array for a single-row file,
a 2-D array otherwise (numpy squeezes the leading dimension). -/
inductive RawArray where
  | one : List ℚ → RawArray
  | two : List (List ℚ) → RawArray
deriving DecidableEq

/-- Models the dimensionality of `np.loadtxt`: a CSV with exactly one data row
parses to a 1-D array, any other CSV to a 2-D array of its rows. -/
def csvToRaw (csv : List (List ℚ)) : RawArray :=
  match csv with
  | [r] => RawArray.one r
  | rows => RawArray.two rows

/-- The rows of a raw array after the `raw_data.ndim == 1` special case of
`SensorData._load_and_reshape`: a 1-D array is reshaped to a single-row
matrix (`raw_data.reshape(1, -1)`). -/
def rawRows (raw : RawArray) : List (List ℚ) :=
  match raw with
  | RawArray.one r => [r]
  | RawArray.two rows => rows

/-- One strided column slice `sensor_data[:, i::k]` restricted to a single
time-sample row `r`: the entries of `r` at positions `i, i+k, i+2k, ...`. -/
def sliceRow (i k : ℕ) (r : List ℚ) : List ℚ :=
  (List.range ((r.length - i + k - 1) / k)).map (fun j => r.getD (i + j * k) 0)

/-- `SensorData._load_and_reshape` on an already-parsed raw array: the first
column is the time vector, the remaining columns are deinterleaved into
`numRows` matrices, matrix `i` holding sensor columns `i, i+numRows, ...`. -/
def loadAndReshape (numRows : ℕ) (raw : RawArray) : List ℚ × List Mat :=
  let rows := rawRows raw
  let time := rows.map (fun r => r.headD 0)
  let sensor := rows.map List.tail
  (time, (List.range numRows).map (fun i => sensor.map (sliceRow i numRows)))

/-- Time vector produced by `SensorData._load_and_reshape`. -/
def timeOf (numRows : ℕ) (raw : RawArray) : List ℚ :=
  (loadAndReshape numRows raw).1

/-- Reshaped matrices produced by `SensorData._load_and_reshape`. -/
def dataOf (numRows : ℕ) (raw : RawArray) : List Mat :=
  (loadAndReshape numRows raw).2

/-- `SensorData._pad_to_time`: if the channel already has at least as many
samples as the target time vector, truncate every matrix to the target
length; otherwise append copies of the last time-sample row of each matrix
until the target length is reached (`np.tile` of `row[-1, :]`). -/
def padToTime (timeVec : List ℚ) (dataRows : List Mat) (target : List ℚ) : List Mat :=
  if target.length ≤ timeVec.length then
    dataRows.map (fun m => m.take target.length)
  else
    dataRows.map (fun m => m ++ List.replicate (target.length - timeVec.length) (m.getLastD []))

/-- Steps 1 and 2 of the extension logic in `SensorData._load_and_process`:
`np.diff` of the base time vector followed by the filter keeping only
strictly positive steps. -/
def posDiffs (base : List ℚ) : List ℚ :=
  (List.zipWith (fun a b => b - a) base base.tail).filter (fun d => decide (0 < d))

/-- The last `k` elements of a list, as in the numpy slice `l[-k:]`. -/
def lastN (k : ℕ) (l : List ℚ) : List ℚ :=
  l.drop (l.length - k)

/-- Step 3 of the extension logic in `SensorData._load_and_process`: the mean
of the last 100 positive time steps, with the hardcoded failsafe default of
0.1 when no positive step exists. -/
def avgStep (base : List ℚ) : ℚ :=
  if 0 < (posDiffs base).length then
    (lastN 100 (posDiffs base)).sum / ((lastN 100 (posDiffs base)).length : ℚ)
  else
    1 / 10

/-- The synthesized timestamps `np.arange(1, num_steps_to_add + 1) * avg_step
+ base_time_vector[-1]` of `SensorData._load_and_process`, where
`num_steps_to_add = int(np.ceil((required - last) / avg_step)) + 1`. -/
def extraTime (base : List ℚ) (required : ℚ) : List ℚ :=
  let s := avgStep base
  let numSteps := (⌈(required - base.getLastD 0) / s⌉).toNat + 1
  (List.range' 1 numSteps).map (fun k : ℕ => (k : ℚ) * s + base.getLastD 0)

/-- The final shared time vector of `SensorData._load_and_process`: the base
vector itself when it already reaches the required end time, otherwise the
base vector concatenated with the synthesized extension. -/
def extendTime (base : List ℚ) (required : ℚ) : List ℚ :=
  if base.getLastD 0 < required then base ++ extraTime base required else base

/-- The `valid_times` list of `SensorData._load_and_process`: the native time
vectors of the three channels, keeping only those with more than one point. -/
def validTimesOf (numRows : ℕ) (rr rg rb : RawArray) : List (List ℚ) :=
  [timeOf numRows rr, timeOf numRows rg, timeOf numRows rb].filter
    (fun t => decide (1 < t.length))

/-- Index of the first list of maximal length, as `np.argmax([len(t) ...])`. -/
def argmaxLen (ts : List (List ℚ)) : ℕ :=
  (ts.map List.length).indexOf ((ts.map List.length).foldr max 0)

/-- The `base_time_vector` of `SensorData._load_and_process`: the valid time
vector with the most native samples (first one on ties). -/
def baseTimeOf (numRows : ℕ) (rr rg rb : RawArray) : List ℚ :=
  (validTimesOf numRows rr rg rb).getD (argmaxLen (validTimesOf numRows rr rg rb)) []

/-- Simultaneous zip of three lists, as the Python builtin `zip(a, b, c)`. -/
def zipWith3 {α β γ δ : Type} (f : α → β → γ → δ) : List α → List β → List γ → List δ
  | a :: as, b :: bs, c :: cs => f a b c :: zipWith3 f as bs cs
  | _, _, _ => []

/-- The elementwise luminance formula `0.299 * r + 0.587 * g + 0.114 * b`. -/
def lum (r g b : ℚ) : ℚ :=
  299 / 1000 * r + 587 / 1000 * g + 114 / 1000 * b

/-- The luminance combination applied to one aligned triple of per-row
matrices (numpy broadcasting of `0.299 * r + 0.587 * g + 0.114 * b`). -/
def combineMat (r g b : Mat) : Mat :=
  zipWith3 (fun rr gr br => zipWith3 lum rr gr br) r g b

/-- `SensorData._calculate_summary_signal`: the luminance combination applied
to the zipped lists of per-row matrices of the three channels. -/
def summarize (r g b : List Mat) : List Mat :=
  zipWith3 combineMat r g b

/-- The synchronized dataset held by a fully constructed `SensorData`. -/
structure SensorDataS where
  timeVector : List ℚ
  redData : List Mat
  greenData : List Mat
  blueData : List Mat
  summaryData : List Mat
deriving DecidableEq

/-- The dataset built by the success path of `SensorData._load_and_process`:
extend the base time vector to the last interval boundary, pad or truncate
every channel to it, then compute the summary signal. -/
def processedOf (numRows : ℕ) (rr rg rb : RawArray) (intervals : List ℚ) : SensorDataS :=
  let tv := extendTime (baseTimeOf numRows rr rg rb) (intervals.getLastD 0)
  { timeVector := tv
    redData := padToTime (timeOf numRows rr) (dataOf numRows rr) tv
    greenData := padToTime (timeOf numRows rg) (dataOf numRows rg) tv
    blueData := padToTime (timeOf numRows rb) (dataOf numRows rb) tv
    summaryData := summarize
      (padToTime (timeOf numRows rr) (dataOf numRows rr) tv)
      (padToTime (timeOf numRows rg) (dataOf numRows rg) tv)
      (padToTime (timeOf numRows rb) (dataOf numRows rb) tv) }

/-- `SensorData._load_and_process`: a missing channel file (`none`) raises
`IOError`; an empty interval list makes `exposure_intervals[-1]` raise
`IndexError`; an empty `valid_times` list raises `ValueError`; otherwise the
dataset is built by `processedOf`. -/
def loadAndProcess (numRows : ℕ) (rawR rawG rawB : Option RawArray)
    (intervals : List ℚ) : Except String SensorDataS :=
  match rawR, rawG, rawB with
  | some rr, some rg, some rb =>
    if intervals = [] then Except.error "IndexError"
    else if validTimesOf numRows rr rg rb = [] then Except.error "ValueError"
    else Except.ok (processedOf numRows rr rg rb intervals)
  | _, _, _ => Except.error "IOError"

/-- `np.searchsorted(l, v)` with the default left side on a sorted vector:
the first index whose entry is at least `v`, or the length if none is. -/
def searchSorted (l : List ℚ) (v : ℚ) : ℕ :=
  l.findIdx (fun t => decide (v ≤ t))

/-- Number of columns of a matrix, as `array.shape[1]`. -/
def matCols (m : Mat) : ℕ :=
  (m.headD []).length

/-- Zero padding of `f"{n:02d}"`. -/
def pad2 (n : ℕ) : String :=
  if n < 10 then "0" ++ toString n else toString n

/-- The output path of one extracted segment, exactly as assembled by
`InteractiveDraggableAnalyzer._extract_and_save_all_data` via
`os.path.join` on a POSIX system. -/
def segPath (gasName : String) (conc : ℕ) (cycleNum rowIdx sensorIdx : ℕ) : String :=
  "extracted_data/" ++ gasName ++ "/concentration_" ++ toString conc ++
    "/Cycle_" ++ pad2 cycleNum ++ "/C" ++ toString (rowIdx + 1) ++ "_A" ++
    toString (sensorIdx + 1) ++ ".csv"

/-- One file written by `np.savetxt` during extraction: its path and its two
data columns (time and intensity). -/
structure SegmentFile where
  path : String
  timeSeg : List ℚ
  valueSeg : List ℚ
deriving DecidableEq

/-- The files written for one qualifying cycle by
`InteractiveDraggableAnalyzer._extract_and_save_all_data`: nothing when the
index range found by `np.searchsorted` is empty, otherwise one file per
(sensor row, sensor column) pair. -/
def cycleFiles (gasName : String) (time : List ℚ) (allSignals : List Mat)
    (concentrations : List ℕ) (cyclesPerConc : ℕ) (cycleIdx : ℕ)
    (cs ce : ℚ) : List SegmentFile :=
  let startIdx := searchSorted time cs
  let endIdx := searchSorted time ce
  if endIdx ≤ startIdx then []
  else
    (List.range allSignals.length).flatMap (fun rowIdx =>
      (List.range (matCols (allSignals.getD rowIdx []))).map (fun sensorIdx =>
        { path := segPath gasName (concentrations.getD (cycleIdx / cyclesPerConc) 0)
            (cycleIdx + 1) rowIdx sensorIdx
          timeSeg := (time.drop startIdx).take (endIdx - startIdx)
          valueSeg := (((allSignals.getD rowIdx []).drop startIdx).take
            (endIdx - startIdx)).map (fun r => r.getD sensorIdx 0) }))

/-- `InteractiveDraggableAnalyzer._extract_and_save_all_data` as the list of
files it writes: every cycle fully contained in the user window contributes
its `cycleFiles`, all other cycles contribute nothing. -/
def extractAndSaveAllData (gasName : String) (time : List ℚ) (allSignals : List Mat)
    (intervals : List ℚ) (concentrations : List ℕ)
    (userStart userEnd : ℚ) : List SegmentFile :=
  let numCycles := intervals.length / 2
  let cyclesPerConc := numCycles / concentrations.length
  (List.range numCycles).flatMap (fun cycleIdx =>
    let cs := intervals.getD (cycleIdx * 2) 0
    let ce := intervals.getD (cycleIdx * 2 + 1) 0
    if userStart ≤ cs ∧ ce ≤ userEnd then
      cycleFiles gasName time allSignals concentrations cyclesPerConc cycleIdx cs ce
    else [])

/-- The cycle indices fully contained in the user window, the containment
test being the guard of the extraction loop. -/
def qualifyingCycles (intervals : List ℚ) (userStart userEnd : ℚ) : List ℕ :=
  (List.range (intervals.length / 2)).filter (fun ci =>
    decide (userStart ≤ intervals.getD (ci * 2) 0 ∧ intervals.getD (ci * 2 + 1) 0 ≤ userEnd))

/-- The qualifying cycle indices whose index range over the time vector is
non-empty, the second guard of the extraction loop. -/
def nonemptyQualifyingCycles (time intervals : List ℚ) (userStart userEnd : ℚ) : List ℕ :=
  (qualifyingCycles intervals userStart userEnd).filter (fun ci =>
    decide (searchSorted time (intervals.getD (ci * 2) 0) <
      searchSorted time (intervals.getD (ci * 2 + 1) 0)))

/-- Re-interleaving of `k` strided slices back by the same stride: position
`p` of the reassembled row of length `n` is entry `p / k` of slice `p % k`. -/
def reassembleRow (k : ℕ) (slices : List (List ℚ)) (n : ℕ) : List ℚ :=
  (List.range n).map (fun p => (slices.getD (p % k) []).getD (p / k) 0)

/-- Modelled from the spec: the truncate-to-shortest synchronization policy
of section 4.2, which is absent from this snapshot of the sources (only the
pad-to-target policy of `SensorData._load_and_process` survives there).
Per the spec, compute the minimum of the native lengths of the three
channels and slice every channel and the time vector to it. -/
def truncateToShortest (tR : List ℚ) (dR : List Mat) (tG : List ℚ) (dG : List Mat)
    (tB : List ℚ) (dB : List Mat) : List ℚ × List Mat × List Mat × List Mat :=
  let minLen := min (min tR.length tG.length) tB.length
  (tR.take minLen,
   dR.map (fun m => m.take minLen),
   dG.map (fun m => m.take minLen),
   dB.map (fun m => m.take minLen))

/-- A uniform matrix with `r` time samples of `c` identical values. -/
def uniMat (r c : ℕ) (x : ℚ) : Mat :=
  List.replicate r (List.replicate c x)

/-! ### Helper lemmas about the embedded operations -/

theorem zipWith3_length {α β γ δ : Type} (f : α → β → γ → δ) :
    ∀ (a : List α) (b : List β) (c : List γ),
      (zipWith3 f a b c).length = min (min a.length b.length) c.length
  | [], b, c => by simp [zipWith3]
  | _ :: _, [], c => by simp [zipWith3]
  | _ :: _, _ :: _, [] => by simp [zipWith3]
  | a :: as, b :: bs, c :: cs => by
    simp only [zipWith3, List.length_cons, zipWith3_length f as bs cs]
    omega

theorem zipWith3_replicate {α β γ δ : Type} (f : α → β → γ → δ) (n : ℕ) (a : α) (b : β) (c : γ) :
    zipWith3 f (List.replicate n a) (List.replicate n b) (List.replicate n c) =
      List.replicate n (f a b c) := by
  induction n with
  | zero => rfl
  | succ k ih => simp only [List.replicate_succ, zipWith3, ih]

theorem zipWith3_getD {α β γ δ : Type} (f : α → β → γ → δ) :
    ∀ (a : List α) (b : List β) (c : List γ) (i : ℕ) (da : α) (db : β) (dc : γ) (dd : δ),
      i < a.length → i < b.length → i < c.length →
      (zipWith3 f a b c).getD i dd = f (a.getD i da) (b.getD i db) (c.getD i dc)
  | [], _, _, i, _, _, _, _ => by simp
  | _ :: _, [], _, i, _, _, _, _ => by simp
  | _ :: _, _ :: _, [], i, _, _, _, _ => by simp
  | a :: as, b :: bs, c :: cs, 0, da, db, dc, dd => by
    intro _ _ _; rfl
  | a :: as, b :: bs, c :: cs, i + 1, da, db, dc, dd => by
    intro ha hb hc
    simpa [zipWith3] using
      zipWith3_getD f as bs cs i da db dc dd (by simpa using ha) (by simpa using hb)
        (by simpa using hc)

theorem mem_zipWith3 {α β γ δ : Type} (f : α → β → γ → δ) :
    ∀ {a : List α} {b : List β} {c : List γ} {x : δ},
      x ∈ zipWith3 f a b c → ∃ a' ∈ a, ∃ b' ∈ b, ∃ c' ∈ c, x = f a' b' c'
  | [], _, _, _, hx => by simp [zipWith3] at hx
  | _ :: _, [], _, _, hx => by simp [zipWith3] at hx
  | _ :: _, _ :: _, [], _, hx => by simp [zipWith3] at hx
  | a :: as, b :: bs, c :: cs, x, hx => by
    rcases List.mem_cons.1 hx with h | h
    · exact ⟨a, List.mem_cons_self _ _, b, List.mem_cons_self _ _, c, List.mem_cons_self _ _, h⟩
    · rcases mem_zipWith3 f h with ⟨a', ha, b', hb, c', hc, hx'⟩
      exact ⟨a', List.mem_cons_of_mem _ ha, b', List.mem_cons_of_mem _ hb,
        c', List.mem_cons_of_mem _ hc, hx'⟩

theorem getD_map_range {α : Type} (f : ℕ → α) {n j : ℕ} (d : α) (h : j < n) :
    ((List.range n).map f).getD j d = f j := by
  rw [List.getD_eq_getElem?_getD, List.getElem?_map, List.getElem?_range h]
  rfl

theorem map_getD_range_self {α : Type} (d : α) : ∀ l : List α,
    (List.range l.length).map (fun i => l.getD i d) = l
  | [] => rfl
  | a :: t => by
    rw [List.length_cons, List.range_succ_eq_map, List.map_cons, List.map_map]
    refine congrArg (a :: ·) ?_
    have : ((fun i => (a :: t).getD i d) ∘ Nat.succ) = fun i => t.getD i d := rfl
    rw [this, map_getD_range_self d t]

/-! ### C7: the luminance combiner -/

/-- C7: the composite signal is the pure elementwise function
`0.299 * R + 0.587 * G + 0.114 * B` applied per sensor-row matrix, and on
uniform inputs `R = G = B = 100` the composite is exactly 100 (the weights
sum to 1), while on uniform zeros it is exactly 0. -/
theorem C7_combiner_correctness :
    (∀ (R G B : Mat) (i j : ℕ),
      i < R.length → i < G.length → i < B.length →
      j < (R.getD i []).length → j < (G.getD i []).length → j < (B.getD i []).length →
      ((combineMat R G B).getD i []).getD j 0 =
        299 / 1000 * (R.getD i []).getD j 0 + 587 / 1000 * (G.getD i []).getD j 0 +
          114 / 1000 * (B.getD i []).getD j 0)
    ∧ (∀ nm r c : ℕ,
      summarize (List.replicate nm (uniMat r c 100)) (List.replicate nm (uniMat r c 100))
          (List.replicate nm (uniMat r c 100)) = List.replicate nm (uniMat r c 100)
      ∧ summarize (List.replicate nm (uniMat r c 0)) (List.replicate nm (uniMat r c 0))
          (List.replicate nm (uniMat r c 0)) = List.replicate nm (uniMat r c 0)) := by
  constructor
  · intro R G B i j hiR hiG hiB hjR hjG hjB
    rw [combineMat, zipWith3_getD _ R G B i [] [] [] [] hiR hiG hiB,
      zipWith3_getD lum _ _ _ j 0 0 0 0 hjR hjG hjB, lum]
  · intro nm r c
    constructor
    · rw [summarize, zipWith3_replicate, combineMat, uniMat, zipWith3_replicate,
        zipWith3_replicate]
      norm_num [lum]
    · rw [summarize, zipWith3_replicate, combineMat, uniMat, zipWith3_replicate,
        zipWith3_replicate]
      norm_num [lum]

/-- Witness for C7 at a concrete one-entry matrix triple. -/
theorem C7_combiner_correctness_witness :
    ((combineMat [[2]] [[6]] [[10]]).getD 0 []).getD 0 0 =
      299 / 1000 * 2 + 587 / 1000 * 6 + 114 / 1000 * 10 := by
  have h := C7_combiner_correctness.1 [[2]] [[6]] [[10]] 0 0
    (by decide) (by decide) (by decide) (by decide) (by decide) (by decide)
  simpa using h

/-! ### C9: degenerate single-row CSV -/

/-- C9: a CSV with exactly one data row loads as a 1 x N matrix: the parsed
time vector holds exactly one sample and every reshaped per-row matrix has
exactly one time row, because the 1-D `np.loadtxt` result is explicitly
reshaped to a single-row matrix. -/
theorem C9_single_row_load (numRows : ℕ) (csv : List (List ℚ)) (h : csv.length = 1) :
    (timeOf numRows (csvToRaw csv)).length = 1
    ∧ ∀ m ∈ dataOf numRows (csvToRaw csv), m.length = 1 := by
  obtain ⟨r, rfl⟩ : ∃ r, csv = [r] := by
    cases csv with
    | nil => simp at h
    | cons a t =>
      cases t with
      | nil => exact ⟨a, rfl⟩
      | cons b u => simp at h
  constructor
  · rfl
  · intro m hm
    rw [dataOf, loadAndReshape] at hm
    simp only [List.mem_map] at hm
    obtain ⟨i, -, rfl⟩ := hm
    rfl

/-- Witness for C9 on a concrete two-column single-row CSV. -/
theorem C9_single_row_load_witness :
    (timeOf 7 (csvToRaw [[0, 1]])).length = 1
    ∧ ((dataOf 7 (csvToRaw [[0, 1]])).getD 0 []).length = 1 := by
  refine ⟨(C9_single_row_load 7 [[0, 1]] rfl).1, ?_⟩
  exact (C9_single_row_load 7 [[0, 1]] rfl).2 _ (by decide)

/-! ### C6: strided deinterleave and its round trip -/

theorem stride_count_iff {i k j n : ℕ} (hk : 0 < k) :
    j < (n - i + k - 1) / k ↔ i + j * k < n := by
  rw [Nat.lt_iff_add_one_le, Nat.le_div_iff_mul_le hk, add_mul, one_mul]
  generalize j * k = m
  omega

theorem sliceRow_getD {i k j : ℕ} (r : List ℚ) (hk : 0 < k) (h : i + j * k < r.length) :
    (sliceRow i k r).getD j 0 = r.getD (i + j * k) 0 := by
  rw [sliceRow, getD_map_range _ 0 ((stride_count_iff hk).2 h)]

theorem reassemble_roundtrip {k : ℕ} (hk : 0 < k) (r : List ℚ) :
    reassembleRow k ((List.range k).map (fun i => sliceRow i k r)) r.length = r := by
  rw [reassembleRow]
  refine (List.map_congr_left ?_).trans (map_getD_range_self 0 r)
  intro p hp
  rw [List.mem_range] at hp
  rw [getD_map_range _ [] (Nat.mod_lt _ hk),
    sliceRow_getD r hk (by rw [Nat.mod_add_div']; exact hp), Nat.mod_add_div']

theorem dataOf_getD {n : ℕ} (raw : RawArray) {i : ℕ} (hi : i < n) :
    (dataOf n raw).getD i [] = (rawRows raw).map (fun row => sliceRow i n row.tail) := by
  dsimp only [dataOf, loadAndReshape]
  rw [getD_map_range _ [] hi, List.map_map]
  rfl

/-- C6: the loader reshaping is the strided deinterleave (column `j` of sensor
row `i` is input data column `i + j * numRows`, counting after the leading
time column), and interleaving the slices back by the same stride reproduces
the original row exactly. -/
theorem C6_reshape_roundtrip :
    (∀ (r : List ℚ) (i j k : ℕ), 0 < k → i + j * k < r.length →
      (sliceRow i k r).getD j 0 = r.getD (i + j * k) 0)
    ∧ (∀ (r : List ℚ) (k : ℕ), 0 < k →
      reassembleRow k ((List.range k).map (fun i => sliceRow i k r)) r.length = r)
    ∧ (∀ (n : ℕ) (raw : RawArray) (i : ℕ), i < n →
      (dataOf n raw).getD i [] = (rawRows raw).map (fun row => sliceRow i n row.tail)) :=
  ⟨fun r _ _ _ hk h => sliceRow_getD r hk h,
   fun r _ hk => reassemble_roundtrip hk r,
   fun _ raw _ hi => dataOf_getD raw hi⟩

/-- Witness for C6 on concrete strided data. -/
theorem C6_reshape_roundtrip_witness :
    (sliceRow 1 2 [10, 11, 12, 13]).getD 1 0 = (13 : ℚ)
    ∧ reassembleRow 2 ((List.range 2).map (fun i => sliceRow i 2 [(10 : ℚ), 11, 12, 13])) 4
        = [10, 11, 12, 13]
    ∧ (dataOf 2 (RawArray.two [[0, 1, 2]])).getD 0 [] = [[1]] := by
  refine ⟨?_, ?_, ?_⟩
  · have h := C6_reshape_roundtrip.1 [10, 11, 12, 13] 1 1 2 (by decide) (by decide)
    rw [h]; decide
  · have h := C6_reshape_roundtrip.2.1 [(10 : ℚ), 11, 12, 13] 2 (by decide)
    simpa using h
  · have h := C6_reshape_roundtrip.2.2 2 (RawArray.two [[0, 1, 2]]) 0 (by decide)
    rw [h]; decide

/-! ### C4: average step and its fallback -/

/-- C4 counterexample: the base time vector `[0, 5]` has exactly one positive
time delta, which is fewer than 2, yet the computed step is the mean 5 of
that single delta and not the fallback 0.1: the code falls back only when
no positive delta exists at all. -/
theorem C4_fallback_counterexample :
    (posDiffs [0, 5]).length = 1 ∧ avgStep [0, 5] = 5 ∧ (5 : ℚ) ≠ 1 / 10 := by
  have hpd : posDiffs [0, 5] = [5] := by
    norm_num [posDiffs]
  refine ⟨by rw [hpd]; rfl, ?_, by norm_num⟩
  rw [avgStep, if_pos (by rw [hpd]; norm_num)]
  rw [hpd]
  norm_num [lastN]

/-- C4 amended: the step is the mean of the last (up to) 100 positive time
deltas, and the fallback default 0.1 is used exactly when no positive delta
exists; when at least one positive delta exists the mean divides by a
positive count, and a base vector with fewer than 2 points yields no delta
and therefore always uses the fallback (no division by zero in any case). -/
theorem C4_avg_step_fallback (base : List ℚ) :
    (posDiffs base = [] → avgStep base = 1 / 10)
    ∧ (posDiffs base ≠ [] →
      avgStep base = (lastN 100 (posDiffs base)).sum / ((lastN 100 (posDiffs base)).length : ℚ)
        ∧ 0 < (lastN 100 (posDiffs base)).length)
    ∧ (base.length ≤ 1 → avgStep base = 1 / 10) := by
  have hnil : base.length ≤ 1 → posDiffs base = [] := by
    intro hb
    cases base with
    | nil => rfl
    | cons a t =>
      cases t with
      | nil => rfl
      | cons b u => simp at hb
  refine ⟨?_, ?_, ?_⟩
  · intro he
    rw [avgStep, if_neg]
    rw [he]
    simp
  · intro hne
    have hlen : 0 < (posDiffs base).length := List.length_pos.2 hne
    have hlast : 0 < (lastN 100 (posDiffs base)).length := by
      rw [lastN, List.length_drop]
      omega
    exact ⟨by rw [avgStep, if_pos hlen], hlast⟩
  · intro hb
    rw [avgStep, if_neg]
    rw [hnil hb]
    simp

/-- Witness for the amended C4 at concrete base vectors. -/
theorem C4_avg_step_fallback_witness :
    avgStep [0, 0] = 1 / 10
    ∧ (avgStep [0, 1, 2]
        = (lastN 100 (posDiffs [0, 1, 2])).sum / ((lastN 100 (posDiffs [0, 1, 2])).length : ℚ)
      ∧ 0 < (lastN 100 (posDiffs [0, 1, 2])).length)
    ∧ avgStep [7] = 1 / 10 := by
  refine ⟨(C4_avg_step_fallback [0, 0]).1 ?_, (C4_avg_step_fallback [0, 1, 2]).2.1 ?_,
    (C4_avg_step_fallback [7]).2.2 (by decide)⟩
  · norm_num [posDiffs]
  · norm_num [posDiffs]
    decide

/-! ### C10: positivity and monotonicity of the synthesized extension -/

theorem posDiffs_mem_pos {base : List ℚ} {d : ℚ} (hd : d ∈ posDiffs base) : 0 < d := by
  rw [posDiffs, List.mem_filter] at hd
  exact of_decide_eq_true hd.2

theorem lastN_length_pos {k : ℕ} (hk : 0 < k) {l : List ℚ} (hl : l ≠ []) :
    0 < (lastN k l).length := by
  rw [lastN, List.length_drop]
  have := List.length_pos.2 hl
  omega

theorem mem_lastN {k : ℕ} {l : List ℚ} {x : ℚ} (hx : x ∈ lastN k l) : x ∈ l := by
  rw [lastN] at hx
  exact List.drop_subset _ _ hx

theorem avgStep_pos (base : List ℚ) : 0 < avgStep base := by
  rw [avgStep]
  split
  · next h =>
    have hne : posDiffs base ≠ [] := by
      intro he
      rw [he] at h
      simp at h
    have hlast : 0 < (lastN 100 (posDiffs base)).length := lastN_length_pos (by norm_num) hne
    have hlne : lastN 100 (posDiffs base) ≠ [] := by
      intro he
      rw [he] at hlast
      simp at hlast
    exact div_pos (List.sum_pos _ (fun x hx => posDiffs_mem_pos (mem_lastN hx)) hlne)
      (by exact_mod_cast hlast)
  · norm_num

theorem extraTime_mem_gt {base : List ℚ} {required t : ℚ} (ht : t ∈ extraTime base required) :
    base.getLastD 0 < t := by
  have ht' : t ∈ (List.range' 1
        ((⌈(required - base.getLastD 0) / avgStep base⌉).toNat + 1)).map
      (fun k : ℕ => (k : ℚ) * avgStep base + base.getLastD 0) := ht
  obtain ⟨m, hm, rfl⟩ := List.mem_map.1 ht'
  rw [List.mem_range'_1] at hm
  have hs := avgStep_pos base
  have h1 : (1 : ℚ) ≤ (m : ℚ) := by exact_mod_cast hm.1
  have hmul : 0 < (m : ℚ) * avgStep base := mul_pos (lt_of_lt_of_le one_pos h1) hs
  linarith

theorem extraTime_chain' (base : List ℚ) (required : ℚ) :
    List.Chain' (· < ·) (extraTime base required) := by
  have hs := avgStep_pos base
  show List.Chain' (· < ·) ((List.range' 1
      ((⌈(required - base.getLastD 0) / avgStep base⌉).toNat + 1)).map
    (fun k : ℕ => (k : ℚ) * avgStep base + base.getLastD 0))
  refine List.Pairwise.chain' ?_
  refine List.Pairwise.map _ ?_ (List.pairwise_lt_range' 1 _)
  intro a b hab
  have hab' : (a : ℚ) < (b : ℚ) := by exact_mod_cast hab
  have := mul_lt_mul_of_pos_right hab' hs
  linarith

theorem extendTime_chain' {base : List ℚ} (required : ℚ)
    (hb : List.Chain' (· < ·) base) :
    List.Chain' (· < ·) (extendTime base required) := by
  rw [extendTime]
  split
  · rw [List.chain'_append]
    refine ⟨hb, extraTime_chain' base required, ?_⟩
    intro x hx y hy
    have hxval : base.getLastD 0 = x := by
      rw [List.getLastD_eq_getLast?, hx]
      rfl
    rw [← hxval]
    exact extraTime_mem_gt (List.mem_of_mem_head? hy)
  · exact hb

/-- C10: the synthesized step is always strictly positive (mean of strictly
positive deltas or the default 0.1); hence padding a strictly increasing
base time vector yields a strictly increasing extended time vector, and
every synthesized timestamp strictly exceeds the last native timestamp. -/
theorem C10_extension_monotone (base : List ℚ) (required : ℚ) :
    0 < avgStep base
    ∧ (List.Chain' (· < ·) base → List.Chain' (· < ·) (extendTime base required))
    ∧ (∀ t ∈ extraTime base required, base.getLastD 0 < t) :=
  ⟨avgStep_pos base, fun hb => extendTime_chain' required hb, fun _ ht => extraTime_mem_gt ht⟩

/-- Witness for C10 at the concrete base `[0, 1]` and target 2. -/
theorem C10_extension_monotone_witness :
    0 < avgStep [0, 1]
    ∧ List.Chain' (· < ·) (extendTime [0, 1] 2)
    ∧ (1 : ℚ) < 2 := by
  refine ⟨(C10_extension_monotone [0, 1] 2).1,
    (C10_extension_monotone [0, 1] 2).2.1 ?_, ?_⟩
  · norm_num [List.chain'_cons]
  · have hmem : (2 : ℚ) ∈ extraTime [0, 1] 2 := by
      have hs : avgStep [0, 1] = 1 := by
        norm_num [avgStep, posDiffs, lastN]
      norm_num [extraTime, hs, List.range']
    have h := (C10_extension_monotone [0, 1] 2).2.2 2 hmem
    exact h

/-! ### C5: truncate-to-shortest policy (modelled from the spec) -/

/-- C5 (spec-modelled): truncating the three channels and the time vector to
the minimum of the three native lengths makes the synchronized length equal
to `min (len1, len2, len3)`, with every matrix row count matching the time
vector length. -/
theorem C5_truncate_to_shortest (tR tG tB : List ℚ) (dR dG dB : List Mat)
    (hR : ∀ m ∈ dR, m.length = tR.length)
    (hG : ∀ m ∈ dG, m.length = tG.length)
    (hB : ∀ m ∈ dB, m.length = tB.length) :
    (truncateToShortest tR dR tG dG tB dB).1.length
        = min (min tR.length tG.length) tB.length
    ∧ (∀ m ∈ (truncateToShortest tR dR tG dG tB dB).2.1,
        m.length = (truncateToShortest tR dR tG dG tB dB).1.length)
    ∧ (∀ m ∈ (truncateToShortest tR dR tG dG tB dB).2.2.1,
        m.length = (truncateToShortest tR dR tG dG tB dB).1.length)
    ∧ (∀ m ∈ (truncateToShortest tR dR tG dG tB dB).2.2.2,
        m.length = (truncateToShortest tR dR tG dG tB dB).1.length) := by
  have htime : (truncateToShortest tR dR tG dG tB dB).1.length
      = min (min tR.length tG.length) tB.length := by
    show (tR.take (min (min tR.length tG.length) tB.length)).length
        = min (min tR.length tG.length) tB.length
    rw [List.length_take]
    omega
  refine ⟨htime, ?_, ?_, ?_⟩ <;> intro m hm <;> rw [htime]
  · obtain ⟨m0, hm0, rfl⟩ := List.mem_map.1 hm
    rw [List.length_take, hR m0 hm0]
    omega
  · obtain ⟨m0, hm0, rfl⟩ := List.mem_map.1 hm
    rw [List.length_take, hG m0 hm0]
    omega
  · obtain ⟨m0, hm0, rfl⟩ := List.mem_map.1 hm
    rw [List.length_take, hB m0 hm0]
    omega

/-- Witness for C5 on three channels of lengths 3, 2 and 4. -/
theorem C5_truncate_to_shortest_witness :
    (truncateToShortest [0, 1, 2] [[[5], [6], [7]]] [0, 1] [[[8], [9]]]
        [0, 1, 2, 3] [[[1], [2], [3], [4]]]).1.length = min (min 3 2) 4
    ∧ ((truncateToShortest [0, 1, 2] [[[5], [6], [7]]] [0, 1] [[[8], [9]]]
        [0, 1, 2, 3] [[[1], [2], [3], [4]]]).2.1.getD 0 []).length
      = (truncateToShortest [0, 1, 2] [[[5], [6], [7]]] [0, 1] [[[8], [9]]]
        [0, 1, 2, 3] [[[1], [2], [3], [4]]]).1.length := by
  have h := C5_truncate_to_shortest [0, 1, 2] [0, 1] [0, 1, 2, 3]
    [[[5], [6], [7]]] [[[8], [9]]] [[[1], [2], [3], [4]]]
    (by intro m hm; rw [List.mem_singleton] at hm; rw [hm]; rfl)
    (by intro m hm; rw [List.mem_singleton] at hm; rw [hm]; rfl)
    (by intro m hm; rw [List.mem_singleton] at hm; rw [hm]; rfl)
  exact ⟨h.1, h.2.1 _ (by decide)⟩

/-! ### Shape and padding lemmas for the synchronizer -/

theorem timeOf_length (n : ℕ) (raw : RawArray) :
    (timeOf n raw).length = (rawRows raw).length := by
  dsimp only [timeOf, loadAndReshape]
  rw [List.length_map]

theorem dataOf_mem_length {n : ℕ} {raw : RawArray} {m : Mat} (hm : m ∈ dataOf n raw) :
    m.length = (timeOf n raw).length := by
  dsimp only [dataOf, loadAndReshape] at hm
  obtain ⟨i, -, rfl⟩ := List.mem_map.1 hm
  rw [List.length_map, List.length_map, timeOf_length]

theorem padToTime_mem_length {t : List ℚ} {d : List Mat} {tv : List ℚ} {m : Mat}
    (hd : ∀ m0 ∈ d, m0.length = t.length) (hm : m ∈ padToTime t d tv) :
    m.length = tv.length := by
  rw [padToTime] at hm
  split at hm
  · next hle =>
    obtain ⟨m0, hm0, rfl⟩ := List.mem_map.1 hm
    rw [List.length_take, hd m0 hm0]
    omega
  · next hgt =>
    obtain ⟨m0, hm0, rfl⟩ := List.mem_map.1 hm
    rw [List.length_append, List.length_replicate, hd m0 hm0]
    omega

theorem loadAndProcess_ok {n : ℕ} {rr rg rb : RawArray} {ivs : List ℚ} {sd : SensorDataS}
    (h : loadAndProcess n (some rr) (some rg) (some rb) ivs = Except.ok sd) :
    sd = processedOf n rr rg rb ivs := by
  simp only [loadAndProcess] at h
  split at h
  · simp at h
  · split at h
    · simp at h
    · simp only [Except.ok.injEq] at h
      exact h.symm

theorem getLastD_irrel {l : List ℚ} (h : l ≠ []) (d d' : ℚ) :
    l.getLastD d = l.getLastD d' := by
  rw [List.getLastD_eq_getLast?, List.getLastD_eq_getLast?]
  cases hl : l.getLast? with
  | none => exact absurd (List.getLast?_eq_none_iff.1 hl) h
  | some x => rfl

theorem getLastD_append_of_ne_nil {l₂ : List ℚ} (h : l₂ ≠ []) (d : ℚ) :
    ∀ l₁ : List ℚ, (l₁ ++ l₂).getLastD d = l₂.getLastD d
  | [] => rfl
  | a :: t => by
    rw [List.cons_append, List.getLastD_cons, getLastD_append_of_ne_nil h a t,
      getLastD_irrel h a d]

theorem getLastD_map_range'_one (f : ℕ → ℚ) (d : ℚ) (m : ℕ) :
    ((List.range' 1 (m + 1)).map f).getLastD d = f (m + 1) := by
  rw [List.range'_concat, List.map_append,
    show List.map f [1 + 1 * m] = [f (1 + 1 * m)] from rfl, List.getLastD_concat]
  congr 1
  omega

theorem extraTime_length (base : List ℚ) (required : ℚ) :
    (extraTime base required).length
      = (⌈(required - base.getLastD 0) / avgStep base⌉).toNat + 1 := by
  show ((List.range' 1 _).map _).length = _
  rw [List.length_map, List.length_range']

theorem extraTime_ne_nil (base : List ℚ) (required : ℚ) :
    extraTime base required ≠ [] := by
  intro he
  have hl := extraTime_length base required
  rw [he] at hl
  simp at hl

theorem extendTime_last_ge (base : List ℚ) (required : ℚ)
    (h : base.getLastD 0 < required) :
    required ≤ (extendTime base required).getLastD 0 := by
  have hs := avgStep_pos base
  rw [extendTime, if_pos h, getLastD_append_of_ne_nil (extraTime_ne_nil base required) 0,
    show extraTime base required
        = (List.range' 1 ((⌈(required - base.getLastD 0) / avgStep base⌉).toNat + 1)).map
          (fun k : ℕ => (k : ℚ) * avgStep base + base.getLastD 0) from rfl,
    getLastD_map_range'_one]
  have hq : 0 < (required - base.getLastD 0) / avgStep base := div_pos (by linarith) hs
  have hc1 : 0 < ⌈(required - base.getLastD 0) / avgStep base⌉ := Int.ceil_pos.2 hq
  have htn : ((⌈(required - base.getLastD 0) / avgStep base⌉.toNat + 1 : ℕ) : ℚ)
      = (⌈(required - base.getLastD 0) / avgStep base⌉ : ℚ) + 1 := by
    rw [Nat.cast_add, Nat.cast_one]
    congr 1
    rw [show ((⌈(required - base.getLastD 0) / avgStep base⌉.toNat : ℕ) : ℚ)
        = ((⌈(required - base.getLastD 0) / avgStep base⌉.toNat : ℤ) : ℚ) by push_cast; ring,
      Int.toNat_of_nonneg (le_of_lt hc1)]
  rw [htn]
  have hle : (required - base.getLastD 0) / avgStep base
      ≤ (⌈(required - base.getLastD 0) / avgStep base⌉ : ℚ) + 1 := by
    have := Int.le_ceil ((required - base.getLastD 0) / avgStep base)
    linarith
  have hmul := mul_le_mul_of_nonneg_right hle (le_of_lt hs)
  rw [div_mul_cancel₀ _ (ne_of_gt hs)] at hmul
  linarith

theorem getD_map_of_lt {α β : Type} (f : α → β) (l : List α) {i : ℕ} (h : i < l.length)
    (da : α) (db : β) : (l.map f).getD i db = f (l.getD i da) := by
  rw [List.getD_eq_getElem?_getD, List.getElem?_map, List.getElem?_eq_getElem h,
    List.getD_eq_getElem l da h]
  rfl

theorem getD_replicate_of_lt {α : Type} {c i : ℕ} (h : i < c) (x d : α) :
    (List.replicate c x).getD i d = x := by
  rw [List.getD_eq_getElem?_getD, List.getElem?_replicate, if_pos h]
  rfl

theorem padToTime_getD_synth {t : List ℚ} {d : List Mat} {tv : List ℚ} (ri i : ℕ)
    (hd : ∀ m0 ∈ d, m0.length = t.length)
    (h1 : t.length ≤ i) (h2 : i < tv.length) :
    ((padToTime t d tv).getD ri []).getD i [] = (d.getD ri []).getLastD [] := by
  rw [padToTime, if_neg (by omega)]
  by_cases hri : ri < d.length
  · rw [getD_map_of_lt _ d hri []]
    have hmem : d.getD ri [] ∈ d := by
      rw [List.getD_eq_getElem d [] hri]
      exact List.getElem_mem hri
    have hml : (d.getD ri []).length = t.length := hd _ hmem
    rw [List.getD_append_right _ _ _ _ (by omega)]
    exact getD_replicate_of_lt (by omega) _ _
  · have hX : (List.map
        (fun m => m ++ List.replicate (tv.length - t.length) (m.getLastD [])) d).getD ri []
        = [] :=
      List.getD_eq_default _ _ (by rw [List.length_map]; omega)
    rw [hX, List.getD_eq_default d [] (by omega)]
    rfl

/-! ### C2 and C3: pad-to-target invariants -/

/-- C2: when the last interval boundary exceeds the last timestamp of the
chosen base (longest valid) channel, the synchronized time vector ends at or
beyond that required end time, and on every channel matrix every padded row
beyond the channel's native length equals the last native time-sample row
(constant-hold extrapolation), hence each sensor keeps its last native value
on all synthesized timestamps. -/
theorem C2_pad_invariant (n : ℕ) (rr rg rb : RawArray) (ivs : List ℚ) (sd : SensorDataS)
    (h : loadAndProcess n (some rr) (some rg) (some rb) ivs = Except.ok sd)
    (hreq : (baseTimeOf n rr rg rb).getLastD 0 < ivs.getLastD 0) :
    ivs.getLastD 0 ≤ sd.timeVector.getLastD 0
    ∧ (∀ ri i : ℕ, (timeOf n rr).length ≤ i → i < sd.timeVector.length →
        (sd.redData.getD ri []).getD i [] = ((dataOf n rr).getD ri []).getLastD [])
    ∧ (∀ ri i : ℕ, (timeOf n rg).length ≤ i → i < sd.timeVector.length →
        (sd.greenData.getD ri []).getD i [] = ((dataOf n rg).getD ri []).getLastD [])
    ∧ (∀ ri i : ℕ, (timeOf n rb).length ≤ i → i < sd.timeVector.length →
        (sd.blueData.getD ri []).getD i [] = ((dataOf n rb).getD ri []).getLastD []) := by
  have hsd := loadAndProcess_ok h
  subst hsd
  dsimp only [processedOf]
  exact ⟨extendTime_last_ge _ _ hreq,
    fun ri i h1 h2 => padToTime_getD_synth ri i (fun m0 hm0 => dataOf_mem_length hm0) h1 h2,
    fun ri i h1 h2 => padToTime_getD_synth ri i (fun m0 hm0 => dataOf_mem_length hm0) h1 h2,
    fun ri i h1 h2 => padToTime_getD_synth ri i (fun m0 hm0 => dataOf_mem_length hm0) h1 h2⟩

/-- C3: after a successful dataset construction, the shared time vector
length equals the row count of every per-sensor-row matrix of the red,
green and blue channels, and hence of the composite summary signal. -/
theorem C3_shape_invariant (n : ℕ) (rr rg rb : RawArray) (ivs : List ℚ) (sd : SensorDataS)
    (h : loadAndProcess n (some rr) (some rg) (some rb) ivs = Except.ok sd) :
    (∀ m ∈ sd.redData, m.length = sd.timeVector.length)
    ∧ (∀ m ∈ sd.greenData, m.length = sd.timeVector.length)
    ∧ (∀ m ∈ sd.blueData, m.length = sd.timeVector.length)
    ∧ (∀ m ∈ sd.summaryData, m.length = sd.timeVector.length) := by
  have hsd := loadAndProcess_ok h
  subst hsd
  dsimp only [processedOf]
  refine ⟨fun m hm => padToTime_mem_length (fun m0 hm0 => dataOf_mem_length hm0) hm,
    fun m hm => padToTime_mem_length (fun m0 hm0 => dataOf_mem_length hm0) hm,
    fun m hm => padToTime_mem_length (fun m0 hm0 => dataOf_mem_length hm0) hm,
    fun m hm => ?_⟩
  obtain ⟨a, ha, b, hb, c, hc, rfl⟩ := mem_zipWith3 combineMat hm
  have hal := padToTime_mem_length (fun m0 hm0 => dataOf_mem_length hm0) ha
  have hbl := padToTime_mem_length (fun m0 hm0 => dataOf_mem_length hm0) hb
  have hcl := padToTime_mem_length (fun m0 hm0 => dataOf_mem_length hm0) hc
  rw [combineMat, zipWith3_length, hal, hbl, hcl]
  omega

/-- Concrete red channel used by the synchronizer witnesses. -/
def wRawR : RawArray := RawArray.two [[0, 5], [1, 6]]

/-- Concrete green channel used by the synchronizer witnesses. -/
def wRawG : RawArray := RawArray.two [[0, 7], [1, 8]]

/-- Concrete blue channel used by the synchronizer witnesses. -/
def wRawB : RawArray := RawArray.two [[0, 9], [1, 10]]

/-- Witness for C2 on a concrete dataset extended from time 1 to 3. -/
theorem C2_pad_invariant_witness :
    (3 : ℚ) ≤ (processedOf 1 wRawR wRawG wRawB [3]).timeVector.getLastD 0
    ∧ ((processedOf 1 wRawR wRawG wRawB [3]).redData.getD 0 []).getD 3 []
        = ((dataOf 1 wRawR).getD 0 []).getLastD [] := by
  have hstep : avgStep [0, 1] = 1 := by
    norm_num [avgStep, posDiffs, lastN]
  have hbase : baseTimeOf 1 wRawR wRawG wRawB = [0, 1] := rfl
  have htv : (processedOf 1 wRawR wRawG wRawB [3]).timeVector = [0, 1, 2, 3, 4] := by
    show extendTime (baseTimeOf 1 wRawR wRawG wRawB) ([(3 : ℚ)].getLastD 0) = _
    rw [hbase]
    norm_num [extendTime, extraTime, hstep, List.range']
  have h := C2_pad_invariant 1 wRawR wRawG wRawB [3] (processedOf 1 wRawR wRawG wRawB [3])
    rfl (by rw [hbase]; norm_num)
  exact ⟨h.1, h.2.1 0 3 (by decide) (by rw [htv]; decide)⟩

/-- Witness for C3 on the same concrete dataset. -/
theorem C3_shape_invariant_witness :
    ((processedOf 1 wRawR wRawG wRawB [3]).redData.getD 0 []).length
        = (processedOf 1 wRawR wRawG wRawB [3]).timeVector.length
    ∧ ((processedOf 1 wRawR wRawG wRawB [3]).summaryData.getD 0 []).length
        = (processedOf 1 wRawR wRawG wRawB [3]).timeVector.length := by
  have h := C3_shape_invariant 1 wRawR wRawG wRawB [3] (processedOf 1 wRawR wRawG wRawB [3]) rfl
  have hred : (processedOf 1 wRawR wRawG wRawB [3]).redData.length = 1 := by
    show (padToTime (timeOf 1 wRawR) (dataOf 1 wRawR)
      (extendTime (baseTimeOf 1 wRawR wRawG wRawB) ([(3 : ℚ)].getLastD 0))).length = 1
    rw [padToTime]
    split <;> rw [List.length_map] <;> rfl
  have hsum : (processedOf 1 wRawR wRawG wRawB [3]).summaryData.length = 1 := by
    show (summarize
      (padToTime (timeOf 1 wRawR) (dataOf 1 wRawR)
        (extendTime (baseTimeOf 1 wRawR wRawG wRawB) ([(3 : ℚ)].getLastD 0)))
      (padToTime (timeOf 1 wRawG) (dataOf 1 wRawG)
        (extendTime (baseTimeOf 1 wRawR wRawG wRawB) ([(3 : ℚ)].getLastD 0)))
      (padToTime (timeOf 1 wRawB) (dataOf 1 wRawB)
        (extendTime (baseTimeOf 1 wRawR wRawG wRawB) ([(3 : ℚ)].getLastD 0)))).length = 1
    rw [summarize, zipWith3_length]
    have hg : (padToTime (timeOf 1 wRawG) (dataOf 1 wRawG)
        (extendTime (baseTimeOf 1 wRawR wRawG wRawB) ([(3 : ℚ)].getLastD 0))).length = 1 := by
      rw [padToTime]
      split <;> rw [List.length_map] <;> rfl
    have hr : (padToTime (timeOf 1 wRawR) (dataOf 1 wRawR)
        (extendTime (baseTimeOf 1 wRawR wRawG wRawB) ([(3 : ℚ)].getLastD 0))).length = 1 := by
      rw [padToTime]
      split <;> rw [List.length_map] <;> rfl
    have hb : (padToTime (timeOf 1 wRawB) (dataOf 1 wRawB)
        (extendTime (baseTimeOf 1 wRawR wRawG wRawB) ([(3 : ℚ)].getLastD 0))).length = 1 := by
      rw [padToTime]
      split <;> rw [List.length_map] <;> rfl
    rw [hr, hg, hb]
    omega
  constructor
  · refine h.1 _ ?_
    rw [List.getD_eq_getElem _ [] (by rw [hred]; omega)]
    exact List.getElem_mem _
  · refine h.2.2.2 _ ?_
    rw [List.getD_eq_getElem _ [] (by rw [hsum]; omega)]
    exact List.getElem_mem _

/-! ### C8: extracted segment paths -/

/-- C8: every extracted segment file is written under the path
`extracted_data/<id>/concentration_<label>/Cycle_<NN>/C<row+1>_A<col+1>.csv`
for a cycle fully contained in the window, where `<id>` is the dataset
identifier handed to the analyzer, `<NN>` is the zero-padded 1-based cycle
number and the label is `concentrations[cycle_index / cycles_per_concentration]`. -/
theorem C8_segment_paths (gasName : String) (time : List ℚ) (allSignals : List Mat)
    (intervals : List ℚ) (concs : List ℕ) (us ue : ℚ) (f : SegmentFile)
    (hf : f ∈ extractAndSaveAllData gasName time allSignals intervals concs us ue) :
    ∃ ci ri si : ℕ, ci < intervals.length / 2
      ∧ us ≤ intervals.getD (ci * 2) 0 ∧ intervals.getD (ci * 2 + 1) 0 ≤ ue
      ∧ ri < allSignals.length ∧ si < matCols (allSignals.getD ri [])
      ∧ f.path = "extracted_data/" ++ gasName ++ "/concentration_"
          ++ toString (concs.getD (ci / (intervals.length / 2 / concs.length)) 0)
          ++ "/Cycle_" ++ pad2 (ci + 1) ++ "/C" ++ toString (ri + 1)
          ++ "_A" ++ toString (si + 1) ++ ".csv" := by
  dsimp only [extractAndSaveAllData] at hf
  obtain ⟨ci, hci, hf⟩ := List.mem_flatMap.1 hf
  rw [List.mem_range] at hci
  refine ⟨ci, ?_⟩
  split at hf
  · next hcond =>
    rw [cycleFiles] at hf
    split at hf
    · simp at hf
    · obtain ⟨ri, hri, hf⟩ := List.mem_flatMap.1 hf
      obtain ⟨si, hsi, rfl⟩ := List.mem_map.1 hf
      rw [List.mem_range] at hri hsi
      exact ⟨ri, si, hci, hcond.1, hcond.2, hri, hsi, rfl⟩
  · simp at hf

/-- Concrete segment file used by the extractor witnesses. -/
def wSeg : SegmentFile :=
  { path := "extracted_data/g/concentration_5/Cycle_01/C1_A1.csv"
    timeSeg := [1, 2]
    valueSeg := [1, 1] }

/-- Witness for C8 on a concrete extraction run. -/
theorem C8_segment_paths_witness :
    ∃ ci ri si : ℕ, ci < ([(1 : ℚ), 3] : List ℚ).length / 2
      ∧ (0 : ℚ) ≤ ([(1 : ℚ), 3] : List ℚ).getD (ci * 2) 0
      ∧ ([(1 : ℚ), 3] : List ℚ).getD (ci * 2 + 1) 0 ≤ (100 : ℚ)
      ∧ ri < ([[[(1 : ℚ), 2], [1, 2], [1, 2], [1, 2], [1, 2]]] : List Mat).length
      ∧ si < matCols (([[[(1 : ℚ), 2], [1, 2], [1, 2], [1, 2], [1, 2]]] : List Mat).getD ri [])
      ∧ wSeg.path = "extracted_data/" ++ "g" ++ "/concentration_"
          ++ toString (([5] : List ℕ).getD (ci / (([(1 : ℚ), 3] : List ℚ).length / 2 / ([5] : List ℕ).length)) 0)
          ++ "/Cycle_" ++ pad2 (ci + 1) ++ "/C" ++ toString (ri + 1)
          ++ "_A" ++ toString (si + 1) ++ ".csv" :=
  C8_segment_paths "g" [0, 1, 2, 3, 4] [[[(1 : ℚ), 2], [1, 2], [1, 2], [1, 2], [1, 2]]]
    [(1 : ℚ), 3] [5] 0 100 wSeg (by decide)

/-! ### C1: extraction counts -/

theorem flatMap_length_const {α β : Type} (C : ℕ) :
    ∀ (l : List α) (g : α → List β), (∀ x ∈ l, (g x).length = C) →
      (l.flatMap g).length = l.length * C
  | [], _, _ => by simp
  | a :: t, g, hg => by
    rw [List.flatMap_cons, List.length_append, List.length_cons,
      hg a (List.mem_cons_self _ _),
      flatMap_length_const C t g (fun x hx => hg x (List.mem_cons_of_mem _ hx))]
    ring

theorem sum_map_ite_const {α : Type} (p : α → Prop) [DecidablePred p] (K : ℕ) :
    ∀ l : List α,
      (l.map (fun x => if p x then K else 0)).sum
        = K * (l.filter (fun x => decide (p x))).length
  | [] => by simp
  | a :: t => by
    by_cases h : p a
    · simp [h, sum_map_ite_const p K t]
      ring
    · simp [h, sum_map_ite_const p K t]

theorem cycleFiles_length (gasName : String) (time : List ℚ) (allSignals : List Mat)
    (concs : List ℕ) (cpc cycleIdx : ℕ) (cs ce : ℚ) (C : ℕ)
    (hc : ∀ m ∈ allSignals, matCols m = C) :
    (cycleFiles gasName time allSignals concs cpc cycleIdx cs ce).length
      = if searchSorted time cs < searchSorted time ce then allSignals.length * C else 0 := by
  rw [cycleFiles]
  split
  · next hle =>
    rw [if_neg (by omega)]
    rfl
  · next hgt =>
    rw [if_pos (by omega)]
    refine (flatMap_length_const C _ _ ?_).trans ?_
    · intro ri hri
      rw [List.length_map, List.length_range, List.mem_range] at *
      refine hc _ ?_
      rw [List.getD_eq_getElem _ [] hri]
      exact List.getElem_mem _
    · rw [List.length_range]

/-- C1 counterexample: the cycle `(10, 20)` is fully contained in the window
`(0, 100)`, and the single signal matrix has 1 row list with 2 sensor
columns, so the claim predicts 1 x 1 x 2 = 2 written segments; but the time
vector `[0, 1, 2]` ends before the cycle, both boundary searches return
index 3, and the extractor skips the cycle, writing 0 files. -/
theorem C1_count_counterexample :
    (extractAndSaveAllData "g" [0, 1, 2] [[[(1 : ℚ), 2], [1, 2], [1, 2]]]
        [10, 20] [5] 0 100).length = 0
    ∧ (qualifyingCycles [10, 20] 0 100).length = 1
    ∧ ([[[(1 : ℚ), 2], [1, 2], [1, 2]]] : List Mat).length = 1
    ∧ matCols (([[[(1 : ℚ), 2], [1, 2], [1, 2]]] : List Mat).getD 0 []) = 2
    ∧ (0 : ℕ) ≠ 1 * 1 * 2 :=
  ⟨rfl, rfl, rfl, rfl, by decide⟩

/-- C1 amended: a partially overlapping cycle produces no files, and every
fully contained cycle whose boundary-search index range over the time
vector is non-empty yields exactly one file per (row, column) pair; a
contained cycle with an empty index range (start index not below end index)
is skipped, so the total count is (number of qualifying cycles with a
non-empty range) x (number of rows) x (number of columns per row). -/
theorem C1_extraction_count (gasName : String) (time : List ℚ) (allSignals : List Mat)
    (intervals : List ℚ) (concs : List ℕ) (us ue : ℚ) (C : ℕ)
    (hc : ∀ m ∈ allSignals, matCols m = C) :
    (extractAndSaveAllData gasName time allSignals intervals concs us ue).length
      = (nonemptyQualifyingCycles time intervals us ue).length * allSignals.length * C := by
  dsimp only [extractAndSaveAllData]
  rw [List.length_flatMap]
  have hstep : ∀ ci ∈ List.range (intervals.length / 2),
      (List.length ∘ fun cycleIdx =>
        if us ≤ intervals.getD (cycleIdx * 2) 0 ∧ intervals.getD (cycleIdx * 2 + 1) 0 ≤ ue then
          cycleFiles gasName time allSignals concs (intervals.length / 2 / concs.length)
            cycleIdx (intervals.getD (cycleIdx * 2) 0) (intervals.getD (cycleIdx * 2 + 1) 0)
        else []) ci
      = if (searchSorted time (intervals.getD (ci * 2) 0)
              < searchSorted time (intervals.getD (ci * 2 + 1) 0))
            ∧ (us ≤ intervals.getD (ci * 2) 0 ∧ intervals.getD (ci * 2 + 1) 0 ≤ ue) then
          allSignals.length * C
        else 0 := by
    intro ci _
    rw [Function.comp_apply]
    by_cases hq : us ≤ intervals.getD (ci * 2) 0 ∧ intervals.getD (ci * 2 + 1) 0 ≤ ue
    · rw [if_pos hq, cycleFiles_length _ _ _ _ _ _ _ _ C hc]
      by_cases hne : searchSorted time (intervals.getD (ci * 2) 0)
          < searchSorted time (intervals.getD (ci * 2 + 1) 0)
      · rw [if_pos hne, if_pos ⟨hne, hq⟩]
      · rw [if_neg hne, if_neg (by tauto)]
    · rw [if_neg hq, if_neg (by tauto)]
      rfl
  rw [List.map_congr_left hstep,
    sum_map_ite_const
      (fun ci => (searchSorted time (intervals.getD (ci * 2) 0)
          < searchSorted time (intervals.getD (ci * 2 + 1) 0))
        ∧ (us ≤ intervals.getD (ci * 2) 0 ∧ intervals.getD (ci * 2 + 1) 0 ≤ ue))
      (allSignals.length * C) (List.range (intervals.length / 2)),
    nonemptyQualifyingCycles, qualifyingCycles, List.filter_filter]
  simp only [Bool.decide_and]
  ring

/-- Witness for the amended C1 on a concrete extraction run where the single
cycle is contained and in range. -/
theorem C1_extraction_count_witness :
    (extractAndSaveAllData "g" [0, 1, 2, 3, 4]
        [[[(1 : ℚ), 2], [1, 2], [1, 2], [1, 2], [1, 2]]] [1, 3] [5] 0 100).length
      = (nonemptyQualifyingCycles [0, 1, 2, 3, 4] [1, 3] 0 100).length
          * ([[[(1 : ℚ), 2], [1, 2], [1, 2], [1, 2], [1, 2]]] : List Mat).length * 2 :=
  C1_extraction_count "g" [0, 1, 2, 3, 4]
    [[[(1 : ℚ), 2], [1, 2], [1, 2], [1, 2], [1, 2]]] [1, 3] [5] 0 100 2 (by decide)
